/-
Verification of the scheduling engine and GitHub-driver behaviours of the
zuul continuous-integration orchestrator, as a shallow embedding in Lean 4.

Embedded components (each definition mirrors the named Python source):
  * MutexHandler (zuul/scheduler.py)
  * Scheduler.run event-loop sweep (zuul/scheduler.py)
  * Scheduler._reenqueueTenant (zuul/scheduler.py)
  * Scheduler._doPromoteEvent (zuul/scheduler.py)
  * Scheduler._doBuildCompletedEvent (zuul/scheduler.py)
  * GithubConnection.getPullReviews (zuul/driver/github/githubconnection.py)
  * GithubWebhookListener request validation and dispatch
    (zuul/driver/github/githubconnection.py)
  * AnsibleJob.runPlaybooks (zuul/executor/server.py)
-/
import Mathlib

set_option autoImplicit false

/-! ## Build results

Build results in this program are drawn from a fixed set of non-empty
strings (SUCCESS, FAILURE, POST_FAILURE, TIMED_OUT, ABORTED,
MERGER_FAILURE, RETRY_LIMIT, CANCELED).  Python truthiness of
`build.result` therefore coincides with the value being set (non-None),
which the embedding expresses as `Option.isSome`. -/

inductive BResult where
  | success
  | failure
  | post_failure
  | timed_out
  | aborted
  | merger_failure
  | retry_limit
  | canceled
deriving DecidableEq, Repr

/-! ## MutexHandler (zuul/scheduler.py)

Items are identified by a natural number standing for Python object
identity (`held_item is item`).  The registry `self.mutexes` is an
association list from mutex name to the `(item, job_name)` holder, with
Python-dict assignment and deletion semantics. -/

/-- Job as seen by the mutex handler: its name and optional mutex name
(`job.mutex`; `none` models an unset attribute). -/
structure MJob where
  name : String
  mutex : Option String
deriving DecidableEq, Repr

/-- Build as seen by the mutex handler: only its result is inspected. -/
structure MBuild where
  result : Option BResult
deriving DecidableEq, Repr

/-- Environment mapping an item id and a job name to
`item.current_build_set.getBuild(job_name)`. -/
structure MutexEnv where
  getBuild : Nat → String → Option MBuild

/-- The `self.mutexes` dictionary: mutex name to `(item, job_name)`. -/
abbrev MutexRegistry := List (String × Nat × String)

/-- Dictionary lookup `self.mutexes.get(mutex_name)`. -/
def regGet : MutexRegistry → String → Option (Nat × String)
  | [], _ => none
  | (k, w) :: rest, name => if k = name then some w else regGet rest name

/-- Dictionary assignment `self.mutexes[mutex_name] = (item, job_name)`:
replace in place when the key is present, append otherwise. -/
def regSet : MutexRegistry → String → Nat × String → MutexRegistry
  | [], name, v => [(name, v)]
  | (k, w) :: rest, name, v =>
    if k = name then (k, v) :: rest else (k, w) :: regSet rest name v

/-- Dictionary deletion `del self.mutexes[mutex_name]` (first occurrence). -/
def regDel : MutexRegistry → String → MutexRegistry
  | [], _ => []
  | (k, w) :: rest, name => if k = name then rest else (k, w) :: regDel rest name

/-- Python truthiness of an optional string (`if not job.mutex`): falsy when
unset or empty. -/
def optStrFalsy : Option String → Bool
  | none => true
  | some s => s.isEmpty

/-- MutexHandler.acquire(item, job): returns the boolean the Python method
returns, paired with the registry after the call. -/
def MutexHandler.acquire (env : MutexEnv) (mutexes : MutexRegistry)
    (item : Nat) (job : MJob) : Bool × MutexRegistry :=
  if optStrFalsy job.mutex then
    (true, mutexes)
  else
    match job.mutex with
    | none => (true, mutexes)
    | some mutexName =>
      match regGet mutexes mutexName with
      | none =>
        -- The mutex is not held, acquire it
        (true, regSet mutexes mutexName (item, job.name))
      | some (heldItem, heldJobName) =>
        if heldItem = item ∧ heldJobName = job.name then
          -- This item already holds the mutex
          (true, mutexes)
        else
          match env.getBuild heldItem heldJobName with
          | some heldBuild =>
            if heldBuild.result.isSome then
              -- The build that held the mutex is complete: release, reacquire
              (true, regSet (regDel mutexes mutexName) mutexName (item, job.name))
            else
              (false, mutexes)
          | none => (false, mutexes)

/-- MutexHandler.release(item, job): registry after the call. -/
def MutexHandler.release (mutexes : MutexRegistry)
    (item : Nat) (job : MJob) : MutexRegistry :=
  if optStrFalsy job.mutex then
    mutexes
  else
    match job.mutex with
    | none => mutexes
    | some mutexName =>
      match regGet mutexes mutexName with
      | none => mutexes
      | some (heldItem, heldJobName) =>
        if heldItem = item ∧ heldJobName = job.name then
          regDel mutexes mutexName
        else
          mutexes

theorem regGet_regSet_self (reg : MutexRegistry) (name : String) (v : Nat × String) :
    regGet (regSet reg name v) name = some v := by
  induction reg with
  | nil => simp [regSet, regGet]
  | cons hd tl ih =>
    obtain ⟨k, w⟩ := hd
    by_cases hk : k = name
    · simp [regSet, regGet, hk]
    · simp [regSet, regGet, hk, ih]

theorem regGet_regSet_other (reg : MutexRegistry) (name n : String) (v : Nat × String)
    (hn : n ≠ name) : regGet (regSet reg name v) n = regGet reg n := by
  have hnn : name ≠ n := Ne.symm hn
  induction reg with
  | nil => simp [regSet, regGet, hnn]
  | cons hd tl ih =>
    obtain ⟨k, w⟩ := hd
    by_cases hk : k = name
    · subst hk
      simp [regSet, regGet, hnn]
    · by_cases hkn : k = n <;> simp [regSet, regGet, hk, hkn, hn, ih]

theorem regGet_regDel_other (reg : MutexRegistry) (name n : String)
    (hn : n ≠ name) : regGet (regDel reg name) n = regGet reg n := by
  have hnn : name ≠ n := Ne.symm hn
  induction reg with
  | nil => simp [regDel]
  | cons hd tl ih =>
    obtain ⟨k, w⟩ := hd
    by_cases hk : k = name
    · subst hk
      simp [regDel, regGet, hnn]
    · by_cases hkn : k = n <;> simp [regDel, regGet, hk, hkn, hn, ih]

/-- C3: MutexHandler.acquire returns true and leaves the registry unchanged
when `job.mutex` is empty; returns true and records `(item, job.name)` when
the named mutex has no entry; returns true and leaves the registry
unchanged on an idempotent re-acquire by the same `(item, job.name)`;
returns true and replaces the entry with `(item, job.name)` when the
current holder's build on its item's current build set has a non-nil
result; and returns false with the registry unchanged in every other
case. -/
theorem mutex_acquire_cases (env : MutexEnv) (reg : MutexRegistry)
    (item : Nat) (job : MJob) :
    (optStrFalsy job.mutex = true →
      MutexHandler.acquire env reg item job = (true, reg)) ∧
    (∀ name, job.mutex = some name → ¬ name.isEmpty →
      regGet reg name = none →
      (MutexHandler.acquire env reg item job).1 = true ∧
      regGet (MutexHandler.acquire env reg item job).2 name
        = some (item, job.name) ∧
      (∀ n, n ≠ name →
        regGet (MutexHandler.acquire env reg item job).2 n = regGet reg n)) ∧
    (∀ name, job.mutex = some name → ¬ name.isEmpty →
      regGet reg name = some (item, job.name) →
      MutexHandler.acquire env reg item job = (true, reg)) ∧
    (∀ name hi hj, job.mutex = some name → ¬ name.isEmpty →
      regGet reg name = some (hi, hj) → ¬ (hi = item ∧ hj = job.name) →
      (∃ b, env.getBuild hi hj = some b ∧ b.result.isSome) →
      (MutexHandler.acquire env reg item job).1 = true ∧
      regGet (MutexHandler.acquire env reg item job).2 name
        = some (item, job.name) ∧
      (∀ n, n ≠ name →
        regGet (MutexHandler.acquire env reg item job).2 n = regGet reg n)) ∧
    (∀ name hi hj, job.mutex = some name → ¬ name.isEmpty →
      regGet reg name = some (hi, hj) → ¬ (hi = item ∧ hj = job.name) →
      (∀ b, env.getBuild hi hj = some b → b.result = none) →
      MutexHandler.acquire env reg item job = (false, reg)) := by
  refine ⟨?_, ?_, ?_, ?_, ?_⟩
  · intro h
    simp [MutexHandler.acquire, h]
  · intro name hm hne hreg
    have hfalsy : optStrFalsy (some name) = false := by
      simp only [optStrFalsy, Bool.not_eq_true] at hne ⊢
      exact hne
    simp only [MutexHandler.acquire, hm, hfalsy, Bool.false_eq_true, if_false, hreg]
    exact ⟨trivial, regGet_regSet_self reg name (item, job.name),
      fun n hn => regGet_regSet_other reg name n (item, job.name) hn⟩
  · intro name hm hne hreg
    have hfalsy : optStrFalsy (some name) = false := by
      simp only [optStrFalsy, Bool.not_eq_true] at hne ⊢
      exact hne
    simp [MutexHandler.acquire, hfalsy, hm, hreg]
  · intro name hi hj hm hne hreg hnotown hbuild
    have hfalsy : optStrFalsy (some name) = false := by
      simp only [optStrFalsy, Bool.not_eq_true] at hne ⊢
      exact hne
    obtain ⟨b, hb, hbs⟩ := hbuild
    simp only [MutexHandler.acquire, hm, hfalsy, Bool.false_eq_true, if_false, hreg,
      if_neg hnotown, hb, hbs, if_true]
    refine ⟨trivial, ?_, ?_⟩
    · exact regGet_regSet_self _ name (item, job.name)
    · exact fun n hn => (regGet_regSet_other _ name n (item, job.name) hn).trans
        (regGet_regDel_other reg name n hn)
  · intro name hi hj hm hne hreg hnotown hbuild
    have hfalsy : optStrFalsy (some name) = false := by
      simp only [optStrFalsy, Bool.not_eq_true] at hne ⊢
      exact hne
    cases hb : env.getBuild hi hj with
    | none =>
      simp [MutexHandler.acquire, hfalsy, hm, hreg, hnotown, hb]
    | some b =>
      have hres : b.result = none := hbuild b hb
      simp [MutexHandler.acquire, hfalsy, hm, hreg, hnotown, hb, hres]

/-- Concrete environment for the mutex witness: the held item 7 has a
completed build for job "other". -/
def mutexWitnessEnv : MutexEnv where
  getBuild := fun i j =>
    if i = 7 ∧ j = "other" then some ⟨some BResult.success⟩ else none

theorem mutex_acquire_cases_witness :
    (MutexHandler.acquire mutexWitnessEnv [("m", 7, "other")] 3
      ⟨"j", some "m"⟩).1 = true ∧
    regGet (MutexHandler.acquire mutexWitnessEnv [("m", 7, "other")] 3
      ⟨"j", some "m"⟩).2 "m" = some (3, "j") := by
  have h := (mutex_acquire_cases mutexWitnessEnv [("m", 7, "other")] 3
    ⟨"j", some "m"⟩).2.2.2.1 "m" 7 "other" rfl (by decide) (by decide)
    (by decide) ⟨⟨some BResult.success⟩, by decide⟩
  exact ⟨h.1, h.2.1⟩

/-! ## Scheduler._doBuildCompletedEvent (zuul/scheduler.py)

Build sets, items, pipelines and node sets are identified by natural
numbers standing for Python object identity.  `start_time` and `end_time`
are positive epoch timestamps, so Python truthiness of these fields
coincides with the field being set. -/

/-- Build as seen by `_doBuildCompletedEvent`. -/
structure CBuild where
  jobName : String
  buildSet : Nat
  startTime : Option Nat
  endTime : Option Nat
  result : Option BResult
deriving DecidableEq, Repr

/-- Environment of the handler: object graph accessors used by the code. -/
structure CompletedEnv where
  /-- `build_set.item` -/
  buildSetItem : Nat → Nat
  /-- `item.current_build_set` -/
  itemCurrentBuildSet : Nat → Nat
  /-- `item.pipeline` (`none` when the item is not in a pipeline) -/
  itemPipeline : Nat → Option Nat
  /-- `build_set.getJobNodeSet(job_name)`; `none` models the raised
  exception, which the handler catches and logs -/
  getJobNodeSet : Nat → String → Option Nat

/-- Observable effects of one `_doBuildCompletedEvent` call. -/
structure CompletedEffects where
  /-- node sets passed to `nodepool.returnNodeSet` -/
  returnedNodeSets : List Nat
  /-- `time_database.update(job_name, duration, result)` calls -/
  timeUpdates : List (String × Int × BResult)
  /-- `pipeline.manager.onBuildCompleted(build)` calls, as
  (pipeline, job name) -/
  completedNotified : List (Nat × String)
deriving DecidableEq, Repr

/-- Scheduler._doBuildCompletedEvent: mirrors the Python handler. -/
def doBuildCompletedEvent (env : CompletedEnv) (build : CBuild) :
    CompletedEffects :=
  -- Regardless of any other conditions, return the nodes to nodepool
  -- (the getJobNodeSet exception is caught and logged).
  let returned :=
    match env.getJobNodeSet build.buildSet build.jobName with
    | some ns => [ns]
    | none => []
  let item := env.buildSetItem build.buildSet
  if build.buildSet ≠ env.itemCurrentBuildSet item then
    { returnedNodeSets := returned, timeUpdates := [], completedNotified := [] }
  else
    match env.itemPipeline item with
    | none =>
      { returnedNodeSets := returned, timeUpdates := [], completedNotified := [] }
    | some p =>
      let updates :=
        match build.endTime, build.startTime, build.result with
        | some e, some s, some r => [(build.jobName, (e : Int) - (s : Int), r)]
        | _, _, _ => []
      { returnedNodeSets := returned, timeUpdates := updates,
        completedNotified := [(p, build.jobName)] }

/-- Environment for the C4 counterexample: build set 1 is the current build
set of its item, but the item has no pipeline. -/
def c4CexEnv : CompletedEnv where
  buildSetItem := fun _ => 0
  itemCurrentBuildSet := fun _ => 1
  itemPipeline := fun _ => none
  getJobNodeSet := fun _ _ => some 5

/-- Build for the C4 counterexample: all of start time, end time and result
are set. -/
def c4CexBuild : CBuild :=
  { jobName := "jobA", buildSet := 1, startTime := some 10,
    endTime := some 30, result := some BResult.success }

/-- C4 counterexample: a completed build whose build set is current but
whose item has no pipeline.  The claim asserts the time database is
updated and the manager notified in this case; the code returns early
after returning the nodes, doing neither. -/
theorem build_completed_no_pipeline_cex :
    c4CexBuild.buildSet
      = c4CexEnv.itemCurrentBuildSet (c4CexEnv.buildSetItem c4CexBuild.buildSet) ∧
    c4CexBuild.endTime.isSome = true ∧
    c4CexBuild.startTime.isSome = true ∧
    c4CexBuild.result.isSome = true ∧
    (doBuildCompletedEvent c4CexEnv c4CexBuild).timeUpdates = [] ∧
    (doBuildCompletedEvent c4CexEnv c4CexBuild).completedNotified = [] := by
  decide

/-- C4 (amended): the build's node set is returned to the node provisioner
regardless of any other condition; when the build set is stale the event
has no further effect; when the build set is current and the item is
associated with a pipeline, the time database is updated with the build's
job name, end minus start and result (when all three are set, and not
otherwise), and the manager's onBuildCompleted is invoked. -/
theorem build_completed_event_spec (env : CompletedEnv) (build : CBuild) :
    (∀ ns, env.getJobNodeSet build.buildSet build.jobName = some ns →
      (doBuildCompletedEvent env build).returnedNodeSets = [ns]) ∧
    (build.buildSet ≠ env.itemCurrentBuildSet (env.buildSetItem build.buildSet) →
      (doBuildCompletedEvent env build).timeUpdates = [] ∧
      (doBuildCompletedEvent env build).completedNotified = []) ∧
    (∀ p, build.buildSet = env.itemCurrentBuildSet (env.buildSetItem build.buildSet) →
      env.itemPipeline (env.buildSetItem build.buildSet) = some p →
      (doBuildCompletedEvent env build).completedNotified = [(p, build.jobName)] ∧
      (∀ e s r, build.endTime = some e → build.startTime = some s →
        build.result = some r →
        (doBuildCompletedEvent env build).timeUpdates
          = [(build.jobName, (e : Int) - (s : Int), r)]) ∧
      ((build.endTime = none ∨ build.startTime = none ∨ build.result = none) →
        (doBuildCompletedEvent env build).timeUpdates = [])) := by
  refine ⟨?_, ?_, ?_⟩
  · intro ns hns
    simp only [doBuildCompletedEvent, hns]
    split
    · rfl
    · split <;> rfl
  · intro hne
    simp only [doBuildCompletedEvent]
    rw [if_pos hne]
    exact ⟨rfl, rfl⟩
  · intro p hcur hp
    simp only [doBuildCompletedEvent]
    rw [if_neg (not_not_intro hcur), hp]
    refine ⟨rfl, ?_, ?_⟩
    · intro e s r he hs hr
      simp only [he, hs, hr]
    · intro h
      rcases hE : build.endTime with _ | e <;>
        rcases hS : build.startTime with _ | s <;>
          rcases hR : build.result with _ | r <;>
            first
            | rfl
            | (exfalso
               rw [hE, hS, hR] at h
               rcases h with h | h | h <;> exact Option.noConfusion h)

/-! ## Scheduler.run drain sweep (zuul/scheduler.py)

One iteration of the `while True` loop between `wake_event.clear()` and
the next wait.  Events are identified by natural numbers; the oracles
`okR`/`okT` say whether processing a given result/trigger event raises.
Management-event exceptions are captured per event by
`process_management_queue` (`event.exception(...)`) and never escape, so
the management drain always consumes the whole management queue.  Result
and trigger processing exceptions escape into the loop's `except` clause,
which logs, sets the wake event and ends the sweep. -/

/-- Queue an event came from. -/
inductive EvKind where
  | management
  | result
  | trig
deriving DecidableEq, Repr

/-- State of the scheduler's three event queues and the pause flag at the
start of a sweep. -/
structure SchedState where
  managementQ : List Nat
  resultQ : List Nat
  triggerQ : List Nat
  pause : Bool
deriving DecidableEq, Repr

/-- Result of one `while not queue.empty()` drain whose exceptions escape:
events processed (in order, the raising event last), events left in the
queue, and whether an exception escaped. -/
structure DrainOut where
  processed : List Nat
  remaining : List Nat
  exc : Bool
deriving DecidableEq, Repr

/-- Drain loop for the result/trigger queues: pop and process events one at
a time until the queue is empty or processing raises. -/
def drainUncaught (ok : Nat → Bool) : List Nat → DrainOut
  | [] => ⟨[], [], false⟩
  | e :: rest =>
    if ok e then
      let d := drainUncaught ok rest
      ⟨e :: d.processed, d.remaining, d.exc⟩
    else
      ⟨[e], rest, true⟩

/-- Outcome of one sweep: processing trace tagged by source queue, the
three queues afterwards, whether an exception escaped, and the wake
condition (cleared at sweep start, re-set by the `except` clause). -/
structure SweepOutcome where
  trace : List (EvKind × Nat)
  managementQ : List Nat
  resultQ : List Nat
  triggerQ : List Nat
  exc : Bool
  wake : Bool
deriving DecidableEq, Repr

/-- One drain sweep of Scheduler.run: management queue first (exceptions
captured per event), then the result queue, then — unless paused — the
trigger queue; an escaping exception ends the sweep and sets the wake
event. -/
def runSweep (okR okT : Nat → Bool) (st : SchedState) : SweepOutcome :=
  let mgmtTrace := st.managementQ.map fun e => (EvKind.management, e)
  let rd := drainUncaught okR st.resultQ
  let resTrace := rd.processed.map fun e => (EvKind.result, e)
  if rd.exc then
    { trace := mgmtTrace ++ resTrace, managementQ := [], resultQ := rd.remaining,
      triggerQ := st.triggerQ, exc := true, wake := true }
  else if st.pause then
    { trace := mgmtTrace ++ resTrace, managementQ := [], resultQ := rd.remaining,
      triggerQ := st.triggerQ, exc := false, wake := false }
  else
    let td := drainUncaught okT st.triggerQ
    { trace := mgmtTrace ++ resTrace ++ td.processed.map fun e => (EvKind.trig, e),
      managementQ := [], resultQ := rd.remaining, triggerQ := td.remaining,
      exc := td.exc, wake := td.exc }

theorem drainUncaught_decomp (ok : Nat → Bool) (q : List Nat) :
    q = (drainUncaught ok q).processed ++ (drainUncaught ok q).remaining := by
  induction q with
  | nil => rfl
  | cons e rest ih =>
    by_cases he : ok e
    · simpa [drainUncaught, he] using ih
    · simp [drainUncaught, he]

theorem drainUncaught_no_exc (ok : Nat → Bool) (q : List Nat)
    (h : (drainUncaught ok q).exc = false) :
    (drainUncaught ok q).remaining = [] := by
  induction q with
  | nil => rfl
  | cons e rest ih =>
    by_cases he : ok e
    · simp only [drainUncaught, he, if_true] at h ⊢
      exact ih h
    · simp [drainUncaught, he] at h

/-- C1: in every sweep, all pending management events are processed before
any result event and all result events before any trigger event; the
queues lose exactly the processed prefix (nothing is dropped); when the
pause flag is set no trigger event is drained; and when processing raises,
the sweep ends with the wake condition re-set; when nothing raises, the
result queue (and, unless paused, the trigger queue) is fully drained. -/
theorem scheduler_sweep_spec (okR okT : Nat → Bool) (st : SchedState) :
    (runSweep okR okT st).managementQ = [] ∧
    (∃ rp tp,
      (runSweep okR okT st).trace
        = st.managementQ.map (fun e => (EvKind.management, e))
          ++ rp.map (fun e => (EvKind.result, e))
          ++ tp.map (fun e => (EvKind.trig, e)) ∧
      st.resultQ = rp ++ (runSweep okR okT st).resultQ ∧
      st.triggerQ = tp ++ (runSweep okR okT st).triggerQ) ∧
    (st.pause = true →
      (∀ x ∈ (runSweep okR okT st).trace, x.1 ≠ EvKind.trig) ∧
      (runSweep okR okT st).triggerQ = st.triggerQ) ∧
    ((runSweep okR okT st).exc = true → (runSweep okR okT st).wake = true) ∧
    ((runSweep okR okT st).exc = false →
      (runSweep okR okT st).resultQ = [] ∧
      (st.pause = false → (runSweep okR okT st).triggerQ = [])) := by
  have hr := drainUncaught_decomp okR st.resultQ
  have ht := drainUncaught_decomp okT st.triggerQ
  refine ⟨?_, ?_, ?_, ?_, ?_⟩
  · by_cases hexc : (drainUncaught okR st.resultQ).exc <;>
      by_cases hp : st.pause <;>
        simp [runSweep, hexc, hp]
  · by_cases hexc : (drainUncaught okR st.resultQ).exc
    · exact ⟨(drainUncaught okR st.resultQ).processed, [],
        by simp [runSweep, hexc], by simpa [runSweep, hexc] using hr,
        by simp [runSweep, hexc]⟩
    · simp only [Bool.not_eq_true] at hexc
      by_cases hp : st.pause
      · exact ⟨(drainUncaught okR st.resultQ).processed, [],
          by simp [runSweep, hexc, hp], by simpa [runSweep, hexc, hp] using hr,
          by simp [runSweep, hexc, hp]⟩
      · simp only [Bool.not_eq_true] at hp
        exact ⟨(drainUncaught okR st.resultQ).processed,
          (drainUncaught okT st.triggerQ).processed,
          by simp [runSweep, hexc, hp], by simpa [runSweep, hexc, hp] using hr,
          by simpa [runSweep, hexc, hp] using ht⟩
  · intro hp
    constructor
    · intro x hx
      by_cases hexc : (drainUncaught okR st.resultQ).exc
      · simp only [runSweep, hexc, if_true] at hx
        rcases List.mem_append.mp hx with hx | hx <;>
          rcases List.mem_map.mp hx with ⟨e, _, rfl⟩ <;> simp
      · simp only [Bool.not_eq_true] at hexc
        simp only [runSweep, hexc, hp, Bool.false_eq_true, if_false, if_true] at hx
        rcases List.mem_append.mp hx with hx | hx <;>
          rcases List.mem_map.mp hx with ⟨e, _, rfl⟩ <;> simp
    · by_cases hexc : (drainUncaught okR st.resultQ).exc <;>
        simp [runSweep, hexc, hp]
  · by_cases hexc : (drainUncaught okR st.resultQ).exc
    · intro _
      simp [runSweep, hexc]
    · simp only [Bool.not_eq_true] at hexc
      by_cases hp : st.pause
      · intro h
        simp [runSweep, hexc, hp] at h
      · simp only [Bool.not_eq_true] at hp
        intro h
        simp only [runSweep, hexc, hp, Bool.false_eq_true, if_false] at h ⊢
        exact h
  · intro hnone
    by_cases hexc : (drainUncaught okR st.resultQ).exc
    · simp [runSweep, hexc] at hnone
    · simp only [Bool.not_eq_true] at hexc
      have hrem := drainUncaught_no_exc okR st.resultQ hexc
      by_cases hp : st.pause
      · refine ⟨by simp [runSweep, hexc, hp, hrem], ?_⟩
        intro hc
        rw [hp] at hc
        cases hc
      · simp only [Bool.not_eq_true] at hp
        simp only [runSweep, hexc, hp, Bool.false_eq_true, if_false] at hnone
        refine ⟨by simp [runSweep, hexc, hp, hrem], ?_⟩
        intro _
        simp only [runSweep, hexc, hp, Bool.false_eq_true, if_false]
        exact drainUncaught_no_exc okT st.triggerQ hnone

/-- Sweep oracle for the witness: processing result event 2 raises. -/
def c1OkR : Nat → Bool := fun e => e != 2

/-- Queue state for the sweep witness. -/
def c1St : SchedState := ⟨[10], [1, 2, 3], [20], false⟩

theorem scheduler_sweep_spec_witness :
    (runSweep c1OkR (fun _ => true) c1St).wake = true ∧
    (runSweep c1OkR (fun _ => true) c1St).resultQ = [3] := by
  have h := scheduler_sweep_spec c1OkR (fun _ => true) c1St
  exact ⟨h.2.2.2.1 (by decide), by decide⟩

/-! ## GithubWebhookListener (zuul/driver/github/githubconnection.py)

HTTP requests are modelled as method, raw body and a header association
list (webob header lookup is by the canonical header name).  The HMAC-SHA1
hex digest is a parameter `hmacHex : secret → body → digest`, since only
the comparison of digests matters to the control flow. -/

/-- Header lookup `request.headers[name]`. -/
def hdrGet : List (String × String) → String → Option String
  | [], _ => none
  | (k, v) :: rest, name => if k = name then some v else hdrGet rest name

/-- Header assignment (used only to state header-independence). -/
def hdrSet : List (String × String) → String → String → List (String × String)
  | [], name, v => [(name, v)]
  | (k, w) :: rest, name, v =>
    if k = name then (k, v) :: rest else (k, w) :: hdrSet rest name v

/-- An incoming webhook HTTP request. -/
structure WRequest where
  method : String
  body : String
  headers : List (String × String)
deriving DecidableEq, Repr

/-- HTTP error responses raised by the listener. -/
inductive WebErr where
  | methodNotAllowed (msg : String)
  | unauthorized (msg : String)
  | badRequest (msg : String)
deriving DecidableEq, Repr

/-- GithubWebhookListener._validate_signature: `none` secret means no
`webhook_token` is configured. -/
def validate_signature (hmacHex : String → String → String)
    (webhookToken : Option String) (request : WRequest) : Except WebErr Unit :=
  match webhookToken with
  | none => Except.ok ()
  | some secret =>
    match hdrGet request.headers "X-Hub-Signature" with
    | none =>
      Except.error (WebErr.unauthorized
        "Please specify a X-Hub-Signature header with secret.")
    | some request_signature =>
      let payload_signature := "sha1=" ++ hmacHex secret request.body
      if payload_signature ≠ request_signature then
        Except.error (WebErr.unauthorized
          "Request signature does not match calculated payload signature. Check that secret is correct.")
      else
        Except.ok ()

/-- Event types for which the listener defines an `_event_<type>` method. -/
def handledGithubEvents : List String :=
  ["push", "pull_request", "issue_comment", "pull_request_review", "status"]

/-- GithubWebhookListener.__dispatch_event: returns the list of events
passed to `sched.addEvent` (one or none), or the HTTP error raised.
`jsonOk` models whether the body deserializes; `runHandler` models the
`_event_<type>` method (`none`: no event produced or handler exception,
both of which the code swallows). -/
def dispatch_event (jsonOk : String → Bool)
    (runHandler : String → String → Option Nat) (request : WRequest) :
    Except WebErr (List Nat) :=
  match hdrGet request.headers "X-Github-Event" with
  | none =>
    Except.error (WebErr.badRequest "Please specify a X-Github-Event header.")
  | some event =>
    if event ∉ handledGithubEvents then
      Except.error (WebErr.badRequest ("Unhandled X-Github-Event: " ++ event))
    else if jsonOk request.body = false then
      Except.error (WebErr.badRequest "Exception deserializing JSON body")
    else
      match runHandler event request.body with
      | some ev => Except.ok [ev]
      | none => Except.ok []

/-- GithubWebhookListener.handle_request: method check, then signature
validation, then dispatch. -/
def handle_request (hmacHex : String → String → String)
    (webhookToken : Option String) (jsonOk : String → Bool)
    (runHandler : String → String → Option Nat) (request : WRequest) :
    Except WebErr (List Nat) :=
  if request.method ≠ "POST" then
    Except.error (WebErr.methodNotAllowed "Only POST method is allowed.")
  else
    match validate_signature hmacHex webhookToken request with
    | Except.error e => Except.error e
    | Except.ok _ => dispatch_event jsonOk runHandler request

/-- C8: with a secret configured, a missing X-Hub-Signature header or a
digest mismatch rejects the request with 401 Unauthorized before any event
is dispatched (the error return means `sched.addEvent` is never reached);
with a matching signature, a missing X-Github-Event header or an event
type with no `_event_` handler rejects with 400 Bad Request. -/
theorem webhook_reject_spec (hmacHex : String → String → String)
    (secret : String) (jsonOk : String → Bool)
    (runHandler : String → String → Option Nat) (request : WRequest)
    (hpost : request.method = "POST") :
    (hdrGet request.headers "X-Hub-Signature" = none →
      handle_request hmacHex (some secret) jsonOk runHandler request
        = Except.error (WebErr.unauthorized
            "Please specify a X-Hub-Signature header with secret.")) ∧
    (∀ sig, hdrGet request.headers "X-Hub-Signature" = some sig →
      "sha1=" ++ hmacHex secret request.body ≠ sig →
      handle_request hmacHex (some secret) jsonOk runHandler request
        = Except.error (WebErr.unauthorized
            "Request signature does not match calculated payload signature. Check that secret is correct.")) ∧
    (∀ sig, hdrGet request.headers "X-Hub-Signature" = some sig →
      "sha1=" ++ hmacHex secret request.body = sig →
      (hdrGet request.headers "X-Github-Event" = none →
        handle_request hmacHex (some secret) jsonOk runHandler request
          = Except.error (WebErr.badRequest
              "Please specify a X-Github-Event header.")) ∧
      (∀ ev, hdrGet request.headers "X-Github-Event" = some ev →
        ev ∉ handledGithubEvents →
        handle_request hmacHex (some secret) jsonOk runHandler request
          = Except.error (WebErr.badRequest
              ("Unhandled X-Github-Event: " ++ ev)))) := by
  refine ⟨?_, ?_, ?_⟩
  · intro hsig
    simp [handle_request, hpost, validate_signature, hsig]
  · intro sig hsig hne
    simp [handle_request, hpost, validate_signature, hsig, hne]
  · intro sig hsig heq
    constructor
    · intro hev
      simp [handle_request, hpost, validate_signature, hsig, heq,
        dispatch_event, hev]
    · intro ev hev hnh
      simp [handle_request, hpost, validate_signature, hsig, heq,
        dispatch_event, hev, hnh]

/-- Request for the C8 witness: POST with a wrong signature header. -/
def c8Request : WRequest :=
  { method := "POST", body := "payload",
    headers := [("X-Hub-Signature", "sha1=bogus"), ("X-Github-Event", "push")] }

theorem webhook_reject_spec_witness :
    handle_request (fun s b => s ++ b) (some "k") (fun _ => true)
      (fun _ _ => none) c8Request
      = Except.error (WebErr.unauthorized
          "Request signature does not match calculated payload signature. Check that secret is correct.") := by
  exact (webhook_reject_spec (fun s b => s ++ b) "k" (fun _ => true)
    (fun _ _ => none) c8Request rfl).2.1 "sha1=bogus" rfl (by decide)

theorem hdrGet_hdrSet_other (hs : List (String × String)) (name n v : String)
    (hn : n ≠ name) : hdrGet (hdrSet hs name v) n = hdrGet hs n := by
  have hnn : name ≠ n := Ne.symm hn
  induction hs with
  | nil => simp [hdrSet, hdrGet, hnn]
  | cons hd tl ih =>
    obtain ⟨k, w⟩ := hd
    by_cases hk : k = name
    · subst hk
      simp [hdrSet, hdrGet, hnn]
    · by_cases hkn : k = n <;> simp [hdrSet, hdrGet, hk, hkn, hn, ih]

theorem dispatch_event_never_unauthorized (jsonOk : String → Bool)
    (runHandler : String → String → Option Nat) (request : WRequest)
    (m : String) :
    dispatch_event jsonOk runHandler request
      ≠ Except.error (WebErr.unauthorized m) := by
  rcases hev : hdrGet request.headers "X-Github-Event" with _ | ev
  · simp [dispatch_event, hev]
  · by_cases hh : ev ∈ handledGithubEvents
    · by_cases hj : jsonOk request.body = false
      · simp [dispatch_event, hev, hh, hj]
      · rcases hrh : runHandler ev request.body with _ | e <;>
          simp [dispatch_event, hev, hh, hj, hrh]
    · simp [dispatch_event, hev, hh]

/-- C9: with no webhook_token configured, signature validation accepts
every request without reading the X-Hub-Signature header: validation
succeeds unconditionally, the overall outcome is unchanged by any value of
that header, and no 401 Unauthorized is ever raised. -/
theorem webhook_no_secret_bypass (hmacHex : String → String → String)
    (jsonOk : String → Bool) (runHandler : String → String → Option Nat)
    (request : WRequest) :
    validate_signature hmacHex none request = Except.ok () ∧
    (∀ s, handle_request hmacHex none jsonOk runHandler
        { request with headers := hdrSet request.headers "X-Hub-Signature" s }
      = handle_request hmacHex none jsonOk runHandler request) ∧
    (∀ m, handle_request hmacHex none jsonOk runHandler request
      ≠ Except.error (WebErr.unauthorized m)) := by
  refine ⟨rfl, ?_, ?_⟩
  · intro s
    have hget : hdrGet (hdrSet request.headers "X-Hub-Signature" s)
        "X-Github-Event" = hdrGet request.headers "X-Github-Event" :=
      hdrGet_hdrSet_other request.headers "X-Hub-Signature" "X-Github-Event" s
        (by decide)
    simp [handle_request, validate_signature, dispatch_event, hget]
  · intro m
    by_cases hm : request.method = "POST"
    · simp only [handle_request, hm, ne_eq, not_true_eq_false, if_false,
        validate_signature]
      exact dispatch_event_never_unauthorized jsonOk runHandler request m
    · simp [handle_request, hm]

/-- Request for the C9 witness. -/
def c9Request : WRequest :=
  { method := "POST", body := "b", headers := [("X-Github-Event", "push")] }

theorem webhook_no_secret_bypass_witness :
    handle_request (fun s b => s ++ b) none (fun _ => true) (fun _ _ => some 1)
      { c9Request with
        headers := hdrSet c9Request.headers "X-Hub-Signature" "sig" }
    = handle_request (fun s b => s ++ b) none (fun _ => true)
        (fun _ _ => some 1) c9Request :=
  (webhook_no_secret_bypass (fun s b => s ++ b) (fun _ => true)
    (fun _ _ => some 1) c9Request).2.1 "sig"

/-! ## GithubWebhookListener._event_status -/

/-- Body of a status webhook, with the fields the handler reads
(`body['creator']` is duplicated from `body['sender']` by the handler
before `_status_as_tuple` is applied). -/
structure StatusBody where
  action : String
  sha : String
  sender : Option String
  context : String
  state : String
deriving DecidableEq, Repr

/-- GithubWebhookListener._status_as_tuple: user is the creator login or
"Unknown". -/
def status_as_tuple (creator : Option String) (context state : String) :
    String × String × String :=
  match creator with
  | none => ("Unknown", context, state)
  | some login => (login, context, state)

/-- The trigger event a status webhook produces. -/
structure GStatusEvent where
  etype : String
  action : String
  event_status : String
deriving DecidableEq, Repr

/-- GithubWebhookListener._event_status: `getPullBySha` models
`connection.getPullBySha` (the open pull request with that head sha, by
identity). -/
def event_status (getPullBySha : String → Option Nat) (body : StatusBody) :
    Option GStatusEvent :=
  if body.action = "pending" then none
  else
    match getPullBySha body.sha with
    | none => none
    | some _ =>
      let t := status_as_tuple body.sender body.context body.state
      some { etype := "pull_request", action := "status",
             event_status := t.1 ++ ":" ++ t.2.1 ++ ":" ++ t.2.2 }

/-- The `if event: ... sched.addEvent(event)` tail of __dispatch_event:
events enqueued to the scheduler for a handler return value. -/
def scheduledEvents (ev : Option GStatusEvent) : List GStatusEvent :=
  match ev with
  | some e => [e]
  | none => []

/-- C10: a status webhook with action "pending", or whose sha matches no
open pull request, makes the handler return None before constructing an
event, so nothing is enqueued to the scheduler. -/
theorem status_event_no_trigger (getPullBySha : String → Option Nat)
    (body : StatusBody) :
    (body.action = "pending" →
      event_status getPullBySha body = none ∧
      scheduledEvents (event_status getPullBySha body) = []) ∧
    (getPullBySha body.sha = none →
      event_status getPullBySha body = none ∧
      scheduledEvents (event_status getPullBySha body) = []) := by
  constructor
  · intro h
    simp [event_status, h, scheduledEvents]
  · intro h
    by_cases ha : body.action = "pending"
    · simp [event_status, ha, scheduledEvents]
    · simp [event_status, ha, h, scheduledEvents]

theorem status_event_no_trigger_witness :
    event_status (fun _ => none) ⟨"pending", "abc", none, "ci", "error"⟩ = none ∧
    scheduledEvents
      (event_status (fun _ => none) ⟨"pending", "abc", none, "ci", "error"⟩)
      = [] :=
  (status_event_no_trigger (fun _ => none)
    ⟨"pending", "abc", none, "ci", "error"⟩).1 rfl

/-! ## AnsibleJob.runPlaybooks (zuul/executor/server.py)

Each `runAnsiblePlaybook` call yields a status (RESULT_NORMAL,
RESULT_TIMED_OUT, RESULT_UNREACHABLE, RESULT_ABORTED) and, for a normal
run, an exit code.  The function is driven by the lists of outcomes the
configured pre-, main and post-playbooks would produce when run. -/

/-- Status component of a `runAnsiblePlaybook` return value. -/
inductive PlayStatus where
  | normal
  | timed_out
  | unreachable
  | play_aborted
deriving DecidableEq, Repr

/-- One playbook execution outcome `(status, code)`; the code is `none`
on the non-normal paths. -/
structure PlaybookRun where
  status : PlayStatus
  code : Option Int
deriving DecidableEq, Repr

/-- The failure test `status != RESULT_NORMAL or code != 0` applied to
pre- and post-playbook outcomes. -/
def runFailed (r : PlaybookRun) : Bool :=
  r.status != PlayStatus.normal || r.code != some 0

/-- What runPlaybooks did: its return value and how many playbooks of each
phase were executed. -/
structure PlaybooksOutcome where
  result : Option String
  presRun : Nat
  ranMain : Bool
  postsRun : Nat
deriving DecidableEq, Repr

/-- AnsibleJob.runPlaybooks: run pre-playbooks in order, returning None on
the first failure; then the main playbook; then, only when the main
playbook finished normally, all post-playbooks, any failure of which
turns the result into POST_FAILURE. -/
def runPlaybooks (pres : List PlaybookRun) (mainRun : PlaybookRun)
    (posts : List PlaybookRun) : PlaybooksOutcome :=
  match pres.findIdx? (fun r => runFailed r) with
  | some i =>
    -- These should really never fail, so return None and have zuul
    -- try again (the remaining phases are not executed).
    { result := none, presRun := i + 1, ranMain := false, postsRun := 0 }
  | none =>
    if mainRun.status = PlayStatus.timed_out then
      { result := some "TIMED_OUT", presRun := pres.length, ranMain := true,
        postsRun := 0 }
    else if mainRun.status = PlayStatus.play_aborted then
      { result := some "ABORTED", presRun := pres.length, ranMain := true,
        postsRun := 0 }
    else if mainRun.status ≠ PlayStatus.normal then
      -- The result of the job is indeterminate; zuul will run it again.
      { result := none, presRun := pres.length, ranMain := true,
        postsRun := 0 }
    else
      let success := mainRun.code = some 0
      let base := if success then "SUCCESS" else "FAILURE"
      { result := some (if posts.any (fun r => runFailed r) then "POST_FAILURE"
                        else base),
        presRun := pres.length, ranMain := true, postsRun := posts.length }

/-- C7 (code divergence): a job with one failing pre-playbook (normal
status, exit code 1), a main playbook that would succeed and one
configured post-playbook.  runPlaybooks returns None (result unset) and
does not run the main playbook — but it also runs zero post-playbooks,
although the repository's own test
(tests/unit/test_v3.py, TestPrePlaybooks.test_pre_playbook_fail) asserts
that post-playbooks do run after a pre-playbook failure. -/
theorem pre_playbook_fail_behavior :
    runPlaybooks [⟨PlayStatus.normal, some 1⟩] ⟨PlayStatus.normal, some 0⟩
      [⟨PlayStatus.normal, some 0⟩]
      = { result := none, presRun := 1, ranMain := false, postsRun := 0 } := by
  decide

/-! ## GithubConnection.getPullReviews
(zuul/driver/github/githubconnection.py)

Reviews carry the fields the mapping reads; `grantedOn` is
`int(time.mktime(...))` of `submitted_at`, so comparing `grantedOn`
compares submission times.  `permOf` models
`getRepoPermission(project, login)`.  The `approvals` dictionary is an
association list with Python-dict insertion order. -/

/-- Review states the mapping accepts. -/
def REVIEW_STATES : List String := ["APPROVED", "CHANGES_REQUESTED", "COMMENTED"]

/-- One review, as returned by the GitHub API. -/
structure Review where
  user : String
  email : Option String
  state : String
  submitted : String
  grantedOn : Nat
deriving DecidableEq, Repr

/-- One gerrit-style approval produced by the mapping. -/
structure Approval where
  username : String
  email : Option String
  grantedOn : Nat
  submitted : String
  atype : String
  description : String
  value : String
deriving DecidableEq, Repr

/-- `permission in ['admin', 'write']`. -/
def userCanWrite (permOf : String → String) (user : String) : Bool :=
  permOf user == "admin" || permOf user == "write"

/-- The per-review part of the mapping loop body: type, description and
value as the Python code assigns them (the final "" arm is unreachable
because callers filter by REVIEW_STATES first). -/
def approvalOfReview (permOf : String → String) (r : Review) : Approval :=
  if r.state = "COMMENTED" then
    { username := r.user, email := r.email, grantedOn := r.grantedOn,
      submitted := r.submitted, atype := "comment", description := "comment",
      value := "0" }
  else
    { username := r.user, email := r.email, grantedOn := r.grantedOn,
      submitted := r.submitted, atype := "review", description := "review",
      value :=
        if r.state = "APPROVED" then
          (if userCanWrite permOf r.user then "2" else "1")
        else if r.state = "CHANGES_REQUESTED" then
          (if userCanWrite permOf r.user then "-2" else "-1")
        else "" }

/-- The `approvals` dictionary: user login to approval. -/
abbrev Approvals := List (String × Approval)

/-- `approvals.get(user)`-style lookup (`user in approvals`). -/
def lookupApproval : Approvals → String → Option Approval
  | [], _ => none
  | (k, a) :: rest, u => if k = u then some a else lookupApproval rest u

/-- `approvals[user] = approval` on an existing key. -/
def replaceApproval : Approvals → String → Approval → Approvals
  | [], u, a => [(u, a)]
  | (k, b) :: rest, u, a =>
    if k = u then (k, a) :: rest else (k, b) :: replaceApproval rest u a

/-- One iteration of the `for review in reviews` loop. -/
def addReview (permOf : String → String) (acc : Approvals) (r : Review) :
    Approvals :=
  if r.state ∉ REVIEW_STATES then acc
  else
    let approval := approvalOfReview permOf r
    match lookupApproval acc r.user with
    | none => acc ++ [(r.user, approval)]
    | some old =>
      -- if there are multiple reviews per user, keep the newest
      if approval.grantedOn > old.grantedOn then
        replaceApproval acc r.user approval
      else acc

/-- GithubConnection.getPullReviews: the approvals dictionary built from
the review list. -/
def getPullReviews (permOf : String → String) (reviews : List Review) :
    Approvals :=
  reviews.foldl (addReview permOf) []

theorem approvalOfReview_grantedOn (permOf : String → String) (r : Review) :
    (approvalOfReview permOf r).grantedOn = r.grantedOn := by
  by_cases h : r.state = "COMMENTED" <;> simp [approvalOfReview, h]

theorem approvalOfReview_username (permOf : String → String) (r : Review) :
    (approvalOfReview permOf r).username = r.user := by
  by_cases h : r.state = "COMMENTED" <;> simp [approvalOfReview, h]

theorem lookupApproval_append (acc : Approvals) (u v : String) (a : Approval) :
    lookupApproval (acc ++ [(v, a)]) u
      = match lookupApproval acc u with
        | some b => some b
        | none => if v = u then some a else none := by
  induction acc with
  | nil => rfl
  | cons hd tl ih =>
    obtain ⟨k, b⟩ := hd
    by_cases hk : k = u <;> simp [lookupApproval, hk, ih]

theorem lookupApproval_none_iff (acc : Approvals) (u : String) :
    lookupApproval acc u = none ↔ u ∉ acc.map Prod.fst := by
  induction acc with
  | nil => simp [lookupApproval]
  | cons hd tl ih =>
    obtain ⟨k, b⟩ := hd
    by_cases hk : k = u
    · subst hk
      simp [lookupApproval]
    · have hku : ¬ u = k := fun hc => hk hc.symm
      simp [lookupApproval, hk, hku, ih]

theorem lookupApproval_replace_self (acc : Approvals) (u : String) (a : Approval) :
    lookupApproval (replaceApproval acc u a) u = some a := by
  induction acc with
  | nil => simp [replaceApproval, lookupApproval]
  | cons hd tl ih =>
    obtain ⟨k, b⟩ := hd
    by_cases hk : k = u <;> simp [replaceApproval, lookupApproval, hk, ih]

theorem lookupApproval_replace_other (acc : Approvals) (u u' : String)
    (a : Approval) (h : u' ≠ u) :
    lookupApproval (replaceApproval acc u a) u' = lookupApproval acc u' := by
  have huu : u ≠ u' := Ne.symm h
  induction acc with
  | nil => simp [replaceApproval, lookupApproval, huu]
  | cons hd tl ih =>
    obtain ⟨k, b⟩ := hd
    by_cases hk : k = u
    · subst hk
      simp [replaceApproval, lookupApproval, huu]
    · by_cases hku : k = u'
      · subst hku
        simp [replaceApproval, lookupApproval, hk, h]
      · simp [replaceApproval, lookupApproval, hk, hku, ih]

theorem keys_replaceApproval (acc : Approvals) (u : String) (a : Approval)
    (h : u ∈ acc.map Prod.fst) :
    (replaceApproval acc u a).map Prod.fst = acc.map Prod.fst := by
  induction acc with
  | nil => simp at h
  | cons hd tl ih =>
    obtain ⟨k, b⟩ := hd
    by_cases hk : k = u
    · simp [replaceApproval, hk]
    · have htl : u ∈ tl.map Prod.fst := by
        simp only [List.map_cons, List.mem_cons] at h
        rcases h with h1 | h1
        · exact absurd h1.symm hk
        · exact h1
      simp [replaceApproval, hk, ih htl]

theorem mem_of_lookupApproval (acc : Approvals) (u : String) (a : Approval)
    (h : lookupApproval acc u = some a) : (u, a) ∈ acc := by
  induction acc with
  | nil => simp [lookupApproval] at h
  | cons hd tl ih =>
    obtain ⟨k, b⟩ := hd
    by_cases hk : k = u
    · subst hk
      simp [lookupApproval] at h
      simp [h]
    · simp [lookupApproval, hk] at h
      exact List.mem_cons_of_mem _ (ih h)

theorem lookupApproval_of_mem (acc : Approvals) (u : String) (a : Approval)
    (hnd : (acc.map Prod.fst).Nodup) (hm : (u, a) ∈ acc) :
    lookupApproval acc u = some a := by
  induction acc with
  | nil => simp at hm
  | cons hd tl ih =>
    obtain ⟨k, b⟩ := hd
    rcases List.mem_cons.mp hm with h1 | h1
    · obtain ⟨h2, h3⟩ := Prod.mk.injEq .. ▸ h1.symm
      simp [lookupApproval, h2.symm, h3]
    · have hk : k ≠ u := by
        intro hku
        subst hku
        have : k ∈ tl.map Prod.fst := List.mem_map.mpr ⟨(k, a), h1, rfl⟩
        exact (List.nodup_cons.mp (by simpa using hnd)).1 this
      have hnd' : (tl.map Prod.fst).Nodup :=
        (List.nodup_cons.mp (by simpa using hnd)).2
      simp [lookupApproval, hk, ih hnd' h1]

theorem nodup_keys_append_singleton (acc : Approvals) (u : String) (a : Approval)
    (hnd : (acc.map Prod.fst).Nodup) (hu : u ∉ acc.map Prod.fst) :
    ((acc ++ [(u, a)]).map Prod.fst).Nodup := by
  rw [List.map_append]
  refine List.Nodup.append hnd (List.nodup_singleton _) ?_
  intro x hx hxa
  rw [List.map_singleton, List.mem_singleton] at hxa
  subst hxa
  exact hu hx

/-- Invariant of the `for review in reviews` loop: keys are unique; a user
absent from the dictionary has no valid-state review among the processed
reviews; a present entry is the mapping of one processed review of that
user whose `grantedOn` is maximal among the user's processed valid-state
reviews. -/
def ReviewInv (permOf : String → String) (processed : List Review)
    (acc : Approvals) : Prop :=
  (acc.map Prod.fst).Nodup ∧
  (∀ u, lookupApproval acc u = none →
    ∀ r ∈ processed, r.user = u → r.state ∉ REVIEW_STATES) ∧
  (∀ u a, lookupApproval acc u = some a →
    ∃ r, r ∈ processed ∧ r.user = u ∧ r.state ∈ REVIEW_STATES ∧
      a = approvalOfReview permOf r ∧
      ∀ r' ∈ processed, r'.user = u → r'.state ∈ REVIEW_STATES →
        r'.grantedOn ≤ r.grantedOn)

theorem addReview_inv (permOf : String → String) (processed : List Review)
    (acc : Approvals) (r : Review) (h : ReviewInv permOf processed acc) :
    ReviewInv permOf (processed ++ [r]) (addReview permOf acc r) := by
  obtain ⟨hnd, hnone, hsome⟩ := h
  by_cases hst : r.state ∈ REVIEW_STATES
  · rcases hl : lookupApproval acc r.user with _ | old
    · -- user not yet in the dictionary: append
      have hadd : addReview permOf acc r
          = acc ++ [(r.user, approvalOfReview permOf r)] := by
        simp [addReview, hst, hl]
      rw [hadd]
      have hfresh : r.user ∉ acc.map Prod.fst :=
        (lookupApproval_none_iff acc r.user).mp hl
      refine ⟨nodup_keys_append_singleton acc r.user _ hnd hfresh, ?_, ?_⟩
      · intro u hu r' hr' hru
        rw [lookupApproval_append] at hu
        rcases hacc : lookupApproval acc u with _ | b
        · rw [hacc] at hu
          by_cases hru2 : r.user = u
          · rw [if_pos hru2] at hu
            exact Option.noConfusion hu
          · rcases List.mem_append.mp hr' with h1 | h1
            · exact hnone u hacc r' h1 hru
            · rw [List.mem_singleton] at h1
              subst h1
              exact absurd hru hru2
        · rw [hacc] at hu
          exact Option.noConfusion hu
      · intro u a ha
        rw [lookupApproval_append] at ha
        rcases hacc : lookupApproval acc u with _ | b
        · rw [hacc] at ha
          by_cases hru2 : r.user = u
          · rw [if_pos hru2] at ha
            have haa : approvalOfReview permOf r = a := Option.some.inj ha
            refine ⟨r, List.mem_append_right _ (List.mem_singleton_self r),
              hru2, hst, haa.symm, ?_⟩
            intro r' hr' hru' hrst'
            rcases List.mem_append.mp hr' with h1 | h1
            · exact absurd hrst' (hnone u hacc r' h1 hru')
            · rw [List.mem_singleton] at h1
              subst h1
              exact Nat.le_refl _
          · rw [if_neg hru2] at ha
            exact Option.noConfusion ha
        · rw [hacc] at ha
          have hba : b = a := Option.some.inj ha
          subst hba
          obtain ⟨r0, hr0mem, hr0u, hr0st, hr0a, hr0max⟩ := hsome u b hacc
          refine ⟨r0, List.mem_append_left _ hr0mem, hr0u, hr0st, hr0a, ?_⟩
          intro r' hr' hru' hrst'
          rcases List.mem_append.mp hr' with h1 | h1
          · exact hr0max r' h1 hru' hrst'
          · rw [List.mem_singleton] at h1
            subst h1
            rw [hru'] at hl
            rw [hl] at hacc
            exact Option.noConfusion hacc
    · -- user already present
      by_cases hgt : (approvalOfReview permOf r).grantedOn > old.grantedOn
      · -- newer review: replace
        have hadd : addReview permOf acc r
            = replaceApproval acc r.user (approvalOfReview permOf r) := by
          simp [addReview, hst, hl, hgt]
        rw [hadd]
        have hmemkey : r.user ∈ acc.map Prod.fst :=
          List.mem_map.mpr ⟨(r.user, old), mem_of_lookupApproval acc r.user old hl, rfl⟩
        have hkeys := keys_replaceApproval acc r.user (approvalOfReview permOf r) hmemkey
        refine ⟨by rw [hkeys]; exact hnd, ?_, ?_⟩
        · intro u hu r' hr' hru
          by_cases hru2 : r.user = u
          · subst hru2
            rw [lookupApproval_replace_self] at hu
            exact Option.noConfusion hu
          · rw [lookupApproval_replace_other acc r.user u _
              (fun hc => hru2 hc.symm)] at hu
            rcases List.mem_append.mp hr' with h1 | h1
            · exact hnone u hu r' h1 hru
            · rw [List.mem_singleton] at h1
              subst h1
              exact absurd hru hru2
        · intro u a ha
          by_cases hru2 : r.user = u
          · subst hru2
            rw [lookupApproval_replace_self] at ha
            have haa : approvalOfReview permOf r = a := Option.some.inj ha
            refine ⟨r, List.mem_append_right _ (List.mem_singleton_self r),
              rfl, hst, haa.symm, ?_⟩
            intro r' hr' hru' hrst'
            rcases List.mem_append.mp hr' with h1 | h1
            · obtain ⟨r0, hr0mem, hr0u, hr0st, hr0a, hr0max⟩ :=
                hsome r.user old hl
              have h2 : r'.grantedOn ≤ r0.grantedOn := hr0max r' h1 hru' hrst'
              have h3 : r0.grantedOn = old.grantedOn := by
                rw [hr0a, approvalOfReview_grantedOn]
              have h4 : old.grantedOn < r.grantedOn := by
                rw [approvalOfReview_grantedOn] at hgt
                exact hgt
              exact Nat.le_of_lt (Nat.lt_of_le_of_lt (h3 ▸ h2) h4)
            · rw [List.mem_singleton] at h1
              subst h1
              exact Nat.le_refl _
          · rw [lookupApproval_replace_other acc r.user u _
              (fun hc => hru2 hc.symm)] at ha
            obtain ⟨r0, hr0mem, hr0u, hr0st, hr0a, hr0max⟩ := hsome u a ha
            refine ⟨r0, List.mem_append_left _ hr0mem, hr0u, hr0st, hr0a, ?_⟩
            intro r' hr' hru' hrst'
            rcases List.mem_append.mp hr' with h1 | h1
            · exact hr0max r' h1 hru' hrst'
            · rw [List.mem_singleton] at h1
              subst h1
              exact absurd hru' hru2
      · -- not newer: dictionary unchanged
        have hadd : addReview permOf acc r = acc := by
          simp [addReview, hst, hl, hgt]
        rw [hadd]
        refine ⟨hnd, ?_, ?_⟩
        · intro u hu r' hr' hru
          rcases List.mem_append.mp hr' with h1 | h1
          · exact hnone u hu r' h1 hru
          · rw [List.mem_singleton] at h1
            subst h1
            rw [hru] at hl
            rw [hl] at hu
            exact Option.noConfusion hu
        · intro u a ha
          obtain ⟨r0, hr0mem, hr0u, hr0st, hr0a, hr0max⟩ := hsome u a ha
          refine ⟨r0, List.mem_append_left _ hr0mem, hr0u, hr0st, hr0a, ?_⟩
          intro r' hr' hru' hrst'
          rcases List.mem_append.mp hr' with h1 | h1
          · exact hr0max r' h1 hru' hrst'
          · rw [List.mem_singleton] at h1
            rw [h1] at hru' ⊢
            rw [hru'] at hl
            rw [hl] at ha
            have hoa : old = a := Option.some.inj ha
            have h4 : r.grantedOn ≤ old.grantedOn := by
              rw [approvalOfReview_grantedOn] at hgt
              exact Nat.le_of_not_lt hgt
            have h5 : r0.grantedOn = a.grantedOn := by
              rw [hr0a, approvalOfReview_grantedOn]
            rw [h5, ← hoa]
            exact h4
  · -- invalid state: skipped
    have hadd : addReview permOf acc r = acc := by
      simp [addReview, hst]
    rw [hadd]
    refine ⟨hnd, ?_, ?_⟩
    · intro u hu r' hr' hru
      rcases List.mem_append.mp hr' with h1 | h1
      · exact hnone u hu r' h1 hru
      · rw [List.mem_singleton] at h1
        subst h1
        exact hst
    · intro u a ha
      obtain ⟨r0, hr0mem, hr0u, hr0st, hr0a, hr0max⟩ := hsome u a ha
      refine ⟨r0, List.mem_append_left _ hr0mem, hr0u, hr0st, hr0a, ?_⟩
      intro r' hr' hru' hrst'
      rcases List.mem_append.mp hr' with h1 | h1
      · exact hr0max r' h1 hru' hrst'
      · rw [List.mem_singleton] at h1
        subst h1
        exact absurd hrst' hst

theorem foldl_addReview_inv (permOf : String → String) (reviews : List Review) :
    ∀ processed acc, ReviewInv permOf processed acc →
      ReviewInv permOf (processed ++ reviews)
        (reviews.foldl (addReview permOf) acc) := by
  induction reviews with
  | nil =>
    intro processed acc h
    simpa using h
  | cons r rest ih =>
    intro processed acc h
    have h2 := ih (processed ++ [r]) (addReview permOf acc r)
      (addReview_inv permOf processed acc r h)
    simpa [List.append_assoc] using h2

/-- C6: every entry of getPullReviews is the mapping of one of that user's
valid-state reviews with maximal submission time (per user only the latest
review is kept, and each user appears at most once); an APPROVED review
maps to value 2 with write/admin permission and 1 otherwise,
CHANGES_REQUESTED to -2 with write and -1 without, COMMENTED to value 0 and type
comment; and every user with a valid-state review is represented. -/
theorem getPullReviews_spec (permOf : String → String) (reviews : List Review) :
    ((getPullReviews permOf reviews).map Prod.fst).Nodup ∧
    (∀ u a, (u, a) ∈ getPullReviews permOf reviews →
      ∃ r, r ∈ reviews ∧ r.user = u ∧ r.state ∈ REVIEW_STATES ∧
        a = approvalOfReview permOf r ∧
        (∀ r' ∈ reviews, r'.user = u → r'.state ∈ REVIEW_STATES →
          r'.grantedOn ≤ r.grantedOn) ∧
        (r.state = "APPROVED" →
          a.value = (if userCanWrite permOf u then "2" else "1")
            ∧ a.atype = "review") ∧
        (r.state = "CHANGES_REQUESTED" →
          a.value = (if userCanWrite permOf u then "-2" else "-1")
            ∧ a.atype = "review") ∧
        (r.state = "COMMENTED" → a.value = "0" ∧ a.atype = "comment")) ∧
    (∀ r ∈ reviews, r.state ∈ REVIEW_STATES →
      ∃ a, (r.user, a) ∈ getPullReviews permOf reviews) := by
  have hbase : ReviewInv permOf [] [] := by
    refine ⟨List.nodup_nil, ?_, ?_⟩
    · intro u _ r hr _
      simp at hr
    · intro u a ha
      simp [lookupApproval] at ha
  have hinv := foldl_addReview_inv permOf reviews [] [] hbase
  rw [List.nil_append] at hinv
  obtain ⟨hnd, hnone, hsome⟩ := hinv
  refine ⟨hnd, ?_, ?_⟩
  · intro u a hm
    have hlook : lookupApproval (getPullReviews permOf reviews) u = some a :=
      lookupApproval_of_mem _ u a hnd hm
    obtain ⟨r, hrmem, hru, hrst, hra, hrmax⟩ := hsome u a hlook
    refine ⟨r, hrmem, hru, hrst, hra, hrmax, ?_, ?_, ?_⟩
    · intro hap
      rw [hra, ← hru]
      constructor <;> simp [approvalOfReview, hap]
    · intro hcr
      rw [hra, ← hru]
      constructor <;> simp [approvalOfReview, hcr]
    · intro hcm
      rw [hra]
      constructor <;> simp [approvalOfReview, hcm]
  · intro r hrmem hrst
    rcases hlk : lookupApproval (getPullReviews permOf reviews) r.user with _ | a
    · exact absurd hrst (hnone r.user hlk r hrmem rfl)
    · exact ⟨a, mem_of_lookupApproval _ _ _ hlk⟩

/-- Repository permissions for the review-mapping witness. -/
def c6Perm : String → String := fun u => if u = "derp" then "write" else "read"

/-- Review list for the witness: two reviews by derp, the later APPROVED. -/
def c6Reviews : List Review :=
  [⟨"derp", none, "CHANGES_REQUESTED", "t1", 100⟩,
   ⟨"herp", none, "APPROVED", "t2", 150⟩,
   ⟨"derp", none, "APPROVED", "t3", 200⟩]

theorem getPullReviews_spec_witness :
    ∃ a, ("derp", a) ∈ getPullReviews c6Perm c6Reviews :=
  (getPullReviews_spec c6Perm c6Reviews).2.2
    ⟨"derp", none, "APPROVED", "t3", 200⟩ (by decide) (by decide)

/-! ## Scheduler._reenqueueTenant (zuul/scheduler.py)

Jobs, builds and items carry identity numbers (Python object identity);
retargeting a build replaces its job object.  The oracle
`reenq : item id → Option (List RJob)` models
`new_manager.reEnqueueItem(item, last_head)` together with the recomputed
job tree: `some newJobs` is a successful re-enqueue whose recomputed tree
holds `newJobs`, `none` a failed one.

Modelled from the spec (zuul/model.py is not part of the sources):
`item.getJobs()`, `item.job_tree.getJobTreeForJob(build.job)`,
`build_set.getBuilds()` and `item.removeBuild(build)`.  Per the spec's
re-enqueue algorithm, a build is carried over exactly when its job still
exists in the item's recomputed job tree; job lookup is by job name. -/

/-- A job object: identity plus name. -/
structure RJob where
  id : Nat
  name : String
deriving DecidableEq, Repr

/-- An in-flight build: identity plus the job it runs. -/
structure RBuild where
  id : Nat
  job : RJob
deriving DecidableEq, Repr

/-- A queue item: identity plus the builds of its current build set. -/
structure RItem where
  id : Nat
  builds : List RBuild
deriving DecidableEq, Repr

/-- Modelled from the spec: lookup of a build's job in the recomputed job
tree (`getJobTreeForJob` plus membership in `item.getJobs()`), by name. -/
def findNewJob : List RJob → String → Option RJob
  | [], _ => none
  | j :: rest, name => if j.name = name then some j else findNewJob rest name

/-- The per-item build loop after a successful reEnqueueItem: carried
builds are retargeted to the job object found in the new tree; the rest
are removed and scheduled for cancellation (tagged with their item's id,
`build.build_set.item`). -/
def partitionBuilds (newJobs : List RJob) (itemId : Nat) :
    List RBuild → List RBuild × List (Nat × RBuild)
  | [] => ([], [])
  | b :: rest =>
    let tail := partitionBuilds newJobs itemId rest
    match findNewJob newJobs b.job.name with
    | some nj => ({ b with job := nj } :: tail.1, tail.2)
    | none => (tail.1, (itemId, b) :: tail.2)

/-- State after the queue/item iteration of _reenqueueTenant: carried
builds, builds cancelled during successful re-enqueues, and
`items_to_remove`. -/
structure ReenqueuePhase1 where
  kept : List RBuild
  canceledNow : List (Nat × RBuild)
  removedItems : List RItem
deriving DecidableEq, Repr

/-- The `for shared_queue ... for item ...` loops of _reenqueueTenant over
a flattened item list. -/
def reenqueuePhase1 (reenq : Nat → Option (List RJob)) :
    List RItem → ReenqueuePhase1
  | [] => ⟨[], [], []⟩
  | item :: rest =>
    let tail := reenqueuePhase1 reenq rest
    match reenq item.id with
    | some newJobs =>
      let p := partitionBuilds newJobs item.id item.builds
      ⟨p.1 ++ tail.kept, p.2 ++ tail.canceledNow, tail.removedItems⟩
    | none => ⟨tail.kept, tail.canceledNow, item :: tail.removedItems⟩

/-- The builds of `items_to_remove`, tagged with their item. -/
def canceledOfRemoved (items : List RItem) : List (Nat × RBuild) :=
  items.flatMap (fun item => item.builds.map (fun b => (item.id, b)))

/-- Overall effect of _reenqueueTenant on one pipeline: carried builds,
cancelled builds (`builds_to_cancel`), and the
`mutex.release(build.build_set.item, build.job)` calls made in the cancel
loop's `finally` clause. -/
structure ReenqueueResult where
  kept : List RBuild
  canceled : List (Nat × RBuild)
  released : List (Nat × RJob)
deriving DecidableEq, Repr

/-- Phase composition: cancel list is the successful items' removed builds
followed by all builds of failed items; every cancelled build's mutex is
released. -/
def reenqueueItems (reenq : Nat → Option (List RJob)) (items : List RItem) :
    ReenqueueResult :=
  let p := reenqueuePhase1 reenq items
  let builds_to_cancel := p.canceledNow ++ canceledOfRemoved p.removedItems
  { kept := p.kept, canceled := builds_to_cancel,
    released := builds_to_cancel.map (fun ib => (ib.1, ib.2.job)) }

/-- Scheduler._reenqueueTenant restricted to one pipeline present in both
layouts: iterate the old pipeline's shared queues in order. -/
def reenqueueTenantPipeline (reenq : Nat → Option (List RJob))
    (queues : List (List RItem)) : ReenqueueResult :=
  reenqueueItems reenq queues.flatten

/-- Occurrences of a build id among carried builds. -/
def buildIdCount (l : List RBuild) (i : Nat) : Nat :=
  (l.filter (fun x => x.id == i)).length

/-- Occurrences of a build id among cancelled builds. -/
def cancIdCount (l : List (Nat × RBuild)) (i : Nat) : Nat :=
  (l.filter (fun x => x.2.id == i)).length

theorem buildIdCount_append (l1 l2 : List RBuild) (i : Nat) :
    buildIdCount (l1 ++ l2) i = buildIdCount l1 i + buildIdCount l2 i := by
  simp [buildIdCount, List.filter_append]

theorem cancIdCount_append (l1 l2 : List (Nat × RBuild)) (i : Nat) :
    cancIdCount (l1 ++ l2) i = cancIdCount l1 i + cancIdCount l2 i := by
  simp [cancIdCount, List.filter_append]

theorem cancIdCount_map_pair (itemId : Nat) (builds : List RBuild) (i : Nat) :
    cancIdCount (builds.map (fun b => (itemId, b))) i = buildIdCount builds i := by
  induction builds with
  | nil => rfl
  | cons b rest ih =>
    by_cases hid : b.id = i <;>
      simp [cancIdCount, buildIdCount, List.filter_cons, hid] at ih ⊢ <;>
        exact ih

theorem partitionBuilds_count (newJobs : List RJob) (itemId : Nat)
    (builds : List RBuild) (i : Nat) :
    buildIdCount (partitionBuilds newJobs itemId builds).1 i
      + cancIdCount (partitionBuilds newJobs itemId builds).2 i
      = buildIdCount builds i := by
  induction builds with
  | nil => rfl
  | cons b rest ih =>
    rcases hf : findNewJob newJobs b.job.name with _ | nj <;>
      by_cases hid : b.id = i <;>
        simp [partitionBuilds, hf, buildIdCount, cancIdCount,
          List.filter_cons, hid] at ih ⊢ <;>
          omega

theorem reenqueueItems_count (reenq : Nat → Option (List RJob))
    (items : List RItem) (i : Nat) :
    buildIdCount (reenqueueItems reenq items).kept i
      + cancIdCount (reenqueueItems reenq items).canceled i
      = buildIdCount (items.flatMap (fun it => it.builds)) i := by
  induction items with
  | nil => rfl
  | cons item rest ih =>
    rcases hre : reenq item.id with _ | newJobs
    · simp only [reenqueueItems, reenqueuePhase1, hre, canceledOfRemoved,
        List.flatMap_cons, buildIdCount_append, cancIdCount_append,
        cancIdCount_map_pair] at ih ⊢
      omega
    · have hp := partitionBuilds_count newJobs item.id item.builds i
      simp only [reenqueueItems, reenqueuePhase1, hre, canceledOfRemoved,
        List.flatMap_cons, buildIdCount_append, cancIdCount_append,
        cancIdCount_map_pair] at ih ⊢
      omega

theorem findNewJob_some (jobs : List RJob) (name : String) (nj : RJob)
    (h : findNewJob jobs name = some nj) : nj ∈ jobs ∧ nj.name = name := by
  induction jobs with
  | nil => simp [findNewJob] at h
  | cons j rest ih =>
    by_cases hj : j.name = name
    · simp [findNewJob, hj] at h
      simp [← h, hj]
    · simp only [findNewJob, hj, if_false] at h
      obtain ⟨h1, h2⟩ := ih h
      exact ⟨List.mem_cons_of_mem _ h1, h2⟩

theorem partitionBuilds_mem_kept (newJobs : List RJob) (itemId : Nat)
    (builds : List RBuild) (b : RBuild) (nj : RJob)
    (hb : b ∈ builds) (hf : findNewJob newJobs b.job.name = some nj) :
    { b with job := nj } ∈ (partitionBuilds newJobs itemId builds).1 := by
  induction builds with
  | nil => simp at hb
  | cons x rest ih =>
    rcases List.mem_cons.mp hb with h1 | h1
    · subst h1
      simp [partitionBuilds, hf]
    · rcases hfx : findNewJob newJobs x.job.name with _ | njx
      · simp only [partitionBuilds, hfx]
        exact ih h1
      · simp only [partitionBuilds, hfx]
        exact List.mem_cons_of_mem _ (ih h1)

theorem partitionBuilds_mem_canc (newJobs : List RJob) (itemId : Nat)
    (builds : List RBuild) (b : RBuild)
    (hb : b ∈ builds) (hf : findNewJob newJobs b.job.name = none) :
    (itemId, b) ∈ (partitionBuilds newJobs itemId builds).2 := by
  induction builds with
  | nil => simp at hb
  | cons x rest ih =>
    rcases List.mem_cons.mp hb with h1 | h1
    · subst h1
      simp [partitionBuilds, hf]
    · rcases hfx : findNewJob newJobs x.job.name with _ | njx
      · simp only [partitionBuilds, hfx]
        exact List.mem_cons_of_mem _ (ih h1)
      · simp only [partitionBuilds, hfx]
        exact ih h1

theorem phase1_mem_kept (reenq : Nat → Option (List RJob)) (items : List RItem)
    (item : RItem) (b : RBuild) (newJobs : List RJob) (nj : RJob)
    (hitem : item ∈ items) (hb : b ∈ item.builds)
    (hre : reenq item.id = some newJobs)
    (hf : findNewJob newJobs b.job.name = some nj) :
    { b with job := nj } ∈ (reenqueuePhase1 reenq items).kept := by
  induction items with
  | nil => simp at hitem
  | cons x rest ih =>
    rcases List.mem_cons.mp hitem with h1 | h1
    · subst h1
      simp only [reenqueuePhase1, hre]
      exact List.mem_append_left _
        (partitionBuilds_mem_kept newJobs item.id item.builds b nj hb hf)
    · rcases hrx : reenq x.id with _ | nJ
      · simp only [reenqueuePhase1, hrx]
        exact ih h1
      · simp only [reenqueuePhase1, hrx]
        exact List.mem_append_right _ (ih h1)

theorem phase1_mem_cancNow (reenq : Nat → Option (List RJob)) (items : List RItem)
    (item : RItem) (b : RBuild) (newJobs : List RJob)
    (hitem : item ∈ items) (hb : b ∈ item.builds)
    (hre : reenq item.id = some newJobs)
    (hf : findNewJob newJobs b.job.name = none) :
    (item.id, b) ∈ (reenqueuePhase1 reenq items).canceledNow := by
  induction items with
  | nil => simp at hitem
  | cons x rest ih =>
    rcases List.mem_cons.mp hitem with h1 | h1
    · subst h1
      simp only [reenqueuePhase1, hre]
      exact List.mem_append_left _
        (partitionBuilds_mem_canc newJobs item.id item.builds b hb hf)
    · rcases hrx : reenq x.id with _ | nJ
      · simp only [reenqueuePhase1, hrx]
        exact ih h1
      · simp only [reenqueuePhase1, hrx]
        exact List.mem_append_right _ (ih h1)

theorem phase1_mem_removed (reenq : Nat → Option (List RJob)) (items : List RItem)
    (item : RItem) (hitem : item ∈ items) (hre : reenq item.id = none) :
    item ∈ (reenqueuePhase1 reenq items).removedItems := by
  induction items with
  | nil => simp at hitem
  | cons x rest ih =>
    rcases List.mem_cons.mp hitem with h1 | h1
    · subst h1
      simp only [reenqueuePhase1, hre]
      exact List.mem_cons_self _ _
    · rcases hrx : reenq x.id with _ | nJ
      · simp only [reenqueuePhase1, hrx]
        exact List.mem_cons_of_mem _ (ih h1)
      · simp only [reenqueuePhase1, hrx]
        exact ih h1

theorem filter_id_nil (rest : List RBuild) (i : Nat)
    (h : ∀ y ∈ rest, y.id ≠ i) : rest.filter (fun y => y.id == i) = [] := by
  induction rest with
  | nil => rfl
  | cons y t ih =>
    have hy : (y.id == i) = false := by
      simp [h y (List.mem_cons_self y t)]
    simp [List.filter_cons, hy,
      ih (fun z hz => h z (List.mem_cons_of_mem _ hz))]

theorem buildIdCount_eq_one (l : List RBuild) (b : RBuild)
    (hnd : (l.map (fun x => x.id)).Nodup) (hb : b ∈ l) :
    buildIdCount l b.id = 1 := by
  induction l with
  | nil => simp at hb
  | cons x rest ih =>
    rw [List.map_cons] at hnd
    have hcons := List.nodup_cons.mp hnd
    rcases List.mem_cons.mp hb with h1 | h1
    · have hbid : b.id = x.id := by rw [h1]
      have hrest : rest.filter (fun y => y.id == b.id) = [] := by
        apply filter_id_nil
        intro y hy hc
        apply hcons.1
        rw [← hbid, ← hc]
        exact List.mem_map.mpr ⟨y, hy, rfl⟩
      have hx : (x.id == b.id) = true := by simp [hbid]
      simp [buildIdCount, List.filter_cons, hx, hrest]
    · have hxid : (x.id == b.id) = false := by
        have hne : x.id ≠ b.id := by
          intro hc
          apply hcons.1
          rw [hc]
          exact List.mem_map.mpr ⟨b, h1, rfl⟩
        simp [hne]
      have := ih hcons.2 h1
      simpa [buildIdCount, List.filter_cons, hxid] using this

theorem map_id_flatMap (items : List RItem) :
    ((items.flatMap (fun it => it.builds)).map (fun x => x.id))
      = items.flatMap (fun it => it.builds.map (fun x => x.id)) := by
  induction items with
  | nil => rfl
  | cons x rest ih => simp [List.flatMap_cons, ih]

/-- C2: during re-enqueue of a pipeline present in both layouts, every
in-flight build of every item is either carried forward or cancelled,
exactly once (counting by build identity, builds being distinct objects):
on reEnqueueItem success a build whose job is still in the recomputed job
tree is retargeted to the new job object and kept while every other build
is cancelled; on failure all of the item's builds are cancelled; and every
cancelled build gets a mutex release call for its item and job. -/
theorem reenqueue_tenant_spec (reenq : Nat → Option (List RJob))
    (queues : List (List RItem))
    (hids : (queues.flatten.flatMap
      (fun it => it.builds.map (fun x => x.id))).Nodup) :
    (∀ item ∈ queues.flatten, ∀ b ∈ item.builds,
      buildIdCount (reenqueueTenantPipeline reenq queues).kept b.id
        + cancIdCount (reenqueueTenantPipeline reenq queues).canceled b.id
        = 1) ∧
    (∀ item ∈ queues.flatten, ∀ b ∈ item.builds, ∀ newJobs,
      reenq item.id = some newJobs →
      (∀ nj, findNewJob newJobs b.job.name = some nj →
        nj ∈ newJobs ∧ nj.name = b.job.name ∧
        { b with job := nj } ∈ (reenqueueTenantPipeline reenq queues).kept) ∧
      (findNewJob newJobs b.job.name = none →
        (item.id, b) ∈ (reenqueueTenantPipeline reenq queues).canceled)) ∧
    (∀ item ∈ queues.flatten, ∀ b ∈ item.builds,
      reenq item.id = none →
      (item.id, b) ∈ (reenqueueTenantPipeline reenq queues).canceled) ∧
    (∀ ib ∈ (reenqueueTenantPipeline reenq queues).canceled,
      (ib.1, ib.2.job) ∈ (reenqueueTenantPipeline reenq queues).released) := by
  refine ⟨?_, ?_, ?_, ?_⟩
  · intro item hitem b hb
    have hcount := reenqueueItems_count reenq queues.flatten b.id
    have hmem : b ∈ queues.flatten.flatMap (fun it => it.builds) :=
      List.mem_flatMap.mpr ⟨item, hitem, hb⟩
    have hnd : ((queues.flatten.flatMap (fun it => it.builds)).map
        (fun x => x.id)).Nodup := by
      rw [map_id_flatMap]
      exact hids
    have hone := buildIdCount_eq_one _ b hnd hmem
    simp only [reenqueueTenantPipeline]
    omega
  · intro item hitem b hb newJobs hre
    constructor
    · intro nj hf
      obtain ⟨hmem, hname⟩ := findNewJob_some newJobs b.job.name nj hf
      exact ⟨hmem, hname,
        phase1_mem_kept reenq queues.flatten item b newJobs nj hitem hb hre hf⟩
    · intro hf
      exact List.mem_append_left _
        (phase1_mem_cancNow reenq queues.flatten item b newJobs hitem hb hre hf)
  · intro item hitem b hb hre
    have h1 := phase1_mem_removed reenq queues.flatten item hitem hre
    have h2 : (item.id, b) ∈ canceledOfRemoved
        (reenqueuePhase1 reenq queues.flatten).removedItems := by
      unfold canceledOfRemoved
      exact List.mem_flatMap.mpr ⟨item, h1, List.mem_map.mpr ⟨b, hb, rfl⟩⟩
    exact List.mem_append_right _ h2
  · intro ib hib
    exact List.mem_map_of_mem _ hib

/-- Re-enqueue oracle for the witness: item 100 re-enqueues successfully
with a recomputed tree holding only the new jobA object; item 200 fails. -/
def c2Reenq : Nat → Option (List RJob) := fun i =>
  if i = 100 then some [⟨10, "jobA"⟩] else none

/-- Old pipeline for the witness: two shared queues, one item each. -/
def c2Queues : List (List RItem) :=
  [[⟨100, [⟨1000, ⟨1, "jobA"⟩⟩, ⟨1001, ⟨2, "jobB"⟩⟩]⟩],
   [⟨200, [⟨2000, ⟨3, "jobC"⟩⟩]⟩]]

theorem reenqueue_tenant_spec_witness :
    buildIdCount (reenqueueTenantPipeline c2Reenq c2Queues).kept 1000
      + cancIdCount (reenqueueTenantPipeline c2Reenq c2Queues).canceled 1000
      = 1 ∧
    (100, ⟨1001, ⟨2, "jobB"⟩⟩) ∈ (reenqueueTenantPipeline c2Reenq c2Queues).canceled ∧
    (200, ⟨2000, ⟨3, "jobC"⟩⟩) ∈ (reenqueueTenantPipeline c2Reenq c2Queues).canceled := by
  have h := reenqueue_tenant_spec c2Reenq c2Queues (by decide)
  refine ⟨?_, ?_, ?_⟩
  · exact h.1 ⟨100, [⟨1000, ⟨1, "jobA"⟩⟩, ⟨1001, ⟨2, "jobB"⟩⟩]⟩ (by decide)
      ⟨1000, ⟨1, "jobA"⟩⟩ (by decide)
  · exact (h.2.1 ⟨100, [⟨1000, ⟨1, "jobA"⟩⟩, ⟨1001, ⟨2, "jobB"⟩⟩]⟩ (by decide)
      ⟨1001, ⟨2, "jobB"⟩⟩ (by decide) [⟨10, "jobA"⟩] (by decide)).2 (by decide)
  · exact h.2.2.1 ⟨200, [⟨2000, ⟨3, "jobC"⟩⟩]⟩ (by decide)
      ⟨2000, ⟨3, "jobC"⟩⟩ (by decide) (by decide)

/-! ## Scheduler._doPromoteEvent (zuul/scheduler.py)

Change ids are `(number, patchset)` string pairs; items carry identity,
their change and enqueue time.  The pipeline manager calls the handler
makes are recorded as a trace.

Modelled from the spec (the pipeline manager is not part of the sources):
`manager.dequeueItem(item)` removes the item from its shared queue;
`manager.addChange(change, enqueue_time, quiet, ignore_requirements)`
appends a fresh queue item for the change to the tail of its shared
queue; `manager.cancelJobs(item)` cancels the item's running jobs. -/

/-- A change as the promote handler compares it. -/
structure PChange where
  number : String
  patchset : String
deriving DecidableEq, Repr

/-- A queue item as the promote handler uses it. -/
structure PItem where
  id : Nat
  change : PChange
  enqueueTime : Nat
deriving DecidableEq, Repr

/-- Pipeline-manager calls issued by the handler. -/
inductive MgrCall where
  | cancelJobs (itemId : Nat)
  | dequeueItem (itemId : Nat)
  | addChange (change : PChange) (enqueueTime : Nat)
deriving DecidableEq, Repr

/-- First item of a queue matching a `(number, patchset)` pair. -/
def findMatch : List PItem → String × String → Option PItem
  | [], _ => none
  | item :: rest, cid =>
    if item.change.number = cid.1 ∧ item.change.patchset = cid.2 then some item
    else findMatch rest cid

/-- The `for shared_queue in pipeline.queues` search for the queue holding
the first requested change. -/
def findChangeQueue : List (List PItem) → String × String → Option (List PItem)
  | [], _ => none
  | q :: rest, cid =>
    match findMatch q cid with
    | some _ => some q
    | none => findChangeQueue rest cid

/-- The `for number, patchset in change_ids` collection loop: the matched
items in request order, or `none` when a requested id is missing. -/
def collectPromoted (queue : List PItem) :
    List (String × String) → Option (List PItem)
  | [] => some []
  | cid :: rest =>
    match findMatch queue cid with
    | none => none
    | some item =>
      match collectPromoted queue rest with
      | none => none
      | some items => some (item :: items)

/-- Outcome of a promote: manager-call trace, and the shared queue's
changes after all items were dequeued and re-added. -/
structure PromoteResult where
  trace : List MgrCall
  finalQueue : List PChange
deriving DecidableEq, Repr

/-- Scheduler._doPromoteEvent: locate the shared queue via the first id,
collect the promoted items (error when an id is missing), then cancel and
dequeue every item of the queue — promoted ones included — appending the
non-promoted items behind the promoted ones, and re-add every collected
item's change in that order. -/
def doPromoteEvent (queues : List (List PItem))
    (changeIds : List (String × String)) : Except String PromoteResult :=
  match changeIds with
  | [] => Except.error "no change ids in promote event"
  | cid0 :: _ =>
    match findChangeQueue queues cid0 with
    | none => Except.error "Unable to find shared change queue"
    | some change_queue =>
      match collectPromoted change_queue changeIds with
      | none => Except.error "Unable to find change in queue"
      | some promoted =>
        let items_to_enqueue :=
          promoted ++ change_queue.filter (fun item => decide (item ∉ promoted))
        let cancelDequeue := change_queue.flatMap
          (fun item => [MgrCall.cancelJobs item.id, MgrCall.dequeueItem item.id])
        let adds := items_to_enqueue.map
          (fun item => MgrCall.addChange item.change item.enqueueTime)
        Except.ok { trace := cancelDequeue ++ adds,
                    finalQueue := items_to_enqueue.map (fun item => item.change) }

/-- The manager-call trace the ok branch of _doPromoteEvent produces. -/
def promoteTraceOf (q promoted : List PItem) : List MgrCall :=
  q.flatMap (fun item => [MgrCall.cancelJobs item.id, MgrCall.dequeueItem item.id])
    ++ (promoted ++ q.filter (fun item => decide (item ∉ promoted))).map
      (fun item => MgrCall.addChange item.change item.enqueueTime)

/-- The final queue content the ok branch of _doPromoteEvent produces. -/
def promoteFinalOf (q promoted : List PItem) : List PChange :=
  (promoted ++ q.filter (fun item => decide (item ∉ promoted))).map
    (fun item => item.change)

theorem collectPromoted_none (q : List PItem) (ids : List (String × String))
    (h : ∃ cid ∈ ids, findMatch q cid = none) : collectPromoted q ids = none := by
  induction ids with
  | nil =>
    obtain ⟨cid, hc, _⟩ := h
    simp at hc
  | cons c rest ih =>
    obtain ⟨cid, hc, hm⟩ := h
    rcases List.mem_cons.mp hc with h1 | h1
    · rw [h1] at hm
      simp [collectPromoted, hm]
    · rcases hfc : findMatch q c with _ | item
      · simp [collectPromoted, hfc]
      · simp [collectPromoted, hfc, ih ⟨cid, h1, hm⟩]

/-- C5 (amended): promote errors when the first id matches no shared queue
or any requested id is missing from the located queue; with valid ids the
promoted changes occupy the front of the final queue in request order
followed by the remaining changes in original order, and cancelJobs and
dequeueItem are invoked on every item of the queue — the promoted items
included — before every carried item's change is re-added. -/
theorem promote_event_spec (queues : List (List PItem))
    (changeIds : List (String × String)) (cid0 : String × String)
    (rest : List (String × String)) (h : changeIds = cid0 :: rest) :
    (findChangeQueue queues cid0 = none →
      ∃ e, doPromoteEvent queues changeIds = Except.error e) ∧
    (∀ q, findChangeQueue queues cid0 = some q →
      ((∃ cid ∈ changeIds, findMatch q cid = none) →
        ∃ e, doPromoteEvent queues changeIds = Except.error e) ∧
      (∀ promoted, collectPromoted q changeIds = some promoted →
        ∃ r, doPromoteEvent queues changeIds = Except.ok r ∧
          r.finalQueue = promoted.map (fun item => item.change)
            ++ (q.filter (fun item => decide (item ∉ promoted))).map
                (fun item => item.change) ∧
          (∀ item ∈ q, MgrCall.cancelJobs item.id ∈ r.trace) ∧
          (∀ item ∈ q, MgrCall.dequeueItem item.id ∈ r.trace) ∧
          (∀ item ∈ promoted,
            MgrCall.addChange item.change item.enqueueTime ∈ r.trace))) := by
  subst h
  refine ⟨?_, ?_⟩
  · intro hnone
    exact ⟨"Unable to find shared change queue", by simp [doPromoteEvent, hnone]⟩
  · intro q hq
    refine ⟨?_, ?_⟩
    · intro hmiss
      have hnone := collectPromoted_none q (cid0 :: rest) hmiss
      exact ⟨"Unable to find change in queue", by simp [doPromoteEvent, hq, hnone]⟩
    · intro promoted hcoll
      refine ⟨⟨promoteTraceOf q promoted, promoteFinalOf q promoted⟩,
        ?_, ?_, ?_, ?_, ?_⟩
      · simp [doPromoteEvent, hq, hcoll, promoteTraceOf, promoteFinalOf]
      · simp [promoteFinalOf, List.map_append]
      · intro item hitem
        apply List.mem_append_left
        exact List.mem_flatMap.mpr ⟨item, hitem, by simp⟩
      · intro item hitem
        apply List.mem_append_left
        exact List.mem_flatMap.mpr ⟨item, hitem, by simp⟩
      · intro item hitem
        apply List.mem_append_right
        exact List.mem_map.mpr ⟨item, List.mem_append_left _ hitem, rfl⟩

/-- Items for the promote example: two changes in one shared queue. -/
def c5ItemA : PItem := ⟨1, ⟨"1", "1"⟩, 10⟩

/-- Second item (the one promoted). -/
def c5ItemB : PItem := ⟨2, ⟨"2", "1"⟩, 20⟩

/-- One-pipeline queue layout for the promote example. -/
def c5Queues : List (List PItem) := [[c5ItemA, c5ItemB]]

/-- C5 counterexample: promoting change 2,1 in front of 1,1.  The claim
says running jobs of the promoted item survive; the handler calls
cancelJobs on every item of the queue, the promoted item 2 included, so
its running jobs are cancelled like the rest. -/
theorem promote_cancels_promoted_jobs_cex :
    doPromoteEvent c5Queues [("2", "1")] = Except.ok
      { trace := [MgrCall.cancelJobs 1, MgrCall.dequeueItem 1,
                  MgrCall.cancelJobs 2, MgrCall.dequeueItem 2,
                  MgrCall.addChange ⟨"2", "1"⟩ 20,
                  MgrCall.addChange ⟨"1", "1"⟩ 10],
        finalQueue := [⟨"2", "1"⟩, ⟨"1", "1"⟩] } := by
  rfl

theorem promote_event_spec_witness :
    ∃ r, doPromoteEvent c5Queues [("2", "1")] = Except.ok r ∧
      r.finalQueue = [⟨"2", "1"⟩, ⟨"1", "1"⟩] ∧
      MgrCall.cancelJobs c5ItemB.id ∈ r.trace := by
  have h := promote_event_spec c5Queues [("2", "1")] ("2", "1") [] rfl
  obtain ⟨r, hr, hfq, hcanc, _, _⟩ :=
    (h.2 [c5ItemA, c5ItemB] (by decide)).2 [c5ItemB] (by decide)
  refine ⟨r, hr, ?_, hcanc c5ItemB (by decide)⟩
  rw [hfq]
  decide

/-- Environment for the C4 witness: the build set is current and the item
is in pipeline 2. -/
def c4WitnessEnv : CompletedEnv where
  buildSetItem := fun _ => 0
  itemCurrentBuildSet := fun _ => 1
  itemPipeline := fun _ => some 2
  getJobNodeSet := fun _ _ => some 5

theorem build_completed_event_spec_witness :
    (doBuildCompletedEvent c4WitnessEnv c4CexBuild).returnedNodeSets = [5] ∧
    (doBuildCompletedEvent c4WitnessEnv c4CexBuild).completedNotified
      = [(2, "jobA")] ∧
    (doBuildCompletedEvent c4WitnessEnv c4CexBuild).timeUpdates
      = [("jobA", (20 : Int), BResult.success)] := by
  have h := build_completed_event_spec c4WitnessEnv c4CexBuild
  refine ⟨h.1 5 rfl, (h.2.2 2 rfl rfl).1, ?_⟩
  have h2 := (h.2.2 2 rfl rfl).2.1 30 10 BResult.success rfl rfl rfl
  rw [h2]
  decide
